import Mathlib

/-!
Verification of the nescookie Netscape cookie-file parser.

The Rust source (`src/lib.rs`, `src/error.rs`) is shallowly embedded here:
strings are modelled as `List Char`, the line iterator, `str::trim`,
`str::split('\t')`, `str::trim_start_matches` and `i64::from_str` are
reproduced as executable Lean functions, and `CookieJarBuilder::parse`
becomes a fold over the retained lines in the `Except` monad.
-/

namespace Nescookie

/-- Rust `char::is_whitespace`: the Unicode `White_Space` property. -/
def rustIsWhitespace (c : Char) : Bool :=
  let n := c.toNat
  (9 ≤ n && n ≤ 13) || n = 32 || n = 0x85 || n = 0xA0 || n = 0x1680 ||
    (0x2000 ≤ n && n ≤ 0x200A) || n = 0x2028 || n = 0x2029 || n = 0x202F ||
    n = 0x205F || n = 0x3000

/-- Rust `str::trim_start`: drop leading whitespace. -/
def trimStart (s : List Char) : List Char :=
  s.dropWhile rustIsWhitespace

/-- Rust `str::trim_end`: drop trailing whitespace. -/
def trimEnd (s : List Char) : List Char :=
  (s.reverse.dropWhile rustIsWhitespace).reverse

/-- Rust `str::trim`: drop whitespace at both ends. -/
def rustTrim (s : List Char) : List Char :=
  trimEnd (trimStart s)

/-- Split a char list at every occurrence of `sep`; always returns at least
one (possibly empty) part, like Rust `str::split(char)`. -/
def splitCh (sep : Char) : List Char → List (List Char)
  | [] => [[]]
  | c :: cs =>
    let r := splitCh sep cs
    if c = sep then [] :: r else (c :: r.headI) :: r.tail

/-- Rust `str::split('\t')` as used by the tokenizer. -/
def splitTab (s : List Char) : List (List Char) :=
  splitCh '\t' s

/-- Strip one trailing carriage return, as Rust `str::lines` does for each
line terminated by `\r\n`. -/
def stripCR (s : List Char) : List Char :=
  if s.getLast? = some '\r' then s.dropLast else s

/-- Rust `str::lines`: split on `'\n'`, strip a `'\r'` left at the end of
each newline-terminated part, and do not produce a final empty line for a
trailing newline.  A final part without a newline keeps any trailing `'\r'`. -/
def rustLines (s : List Char) : List (List Char) :=
  let parts := splitCh '\n' s
  let body := (parts.dropLast).map stripCR
  let last := parts.getLastD []
  if last = [] then body else body ++ [last]

/-- Boolean list-prefix test, Rust `str::starts_with`. -/
def startsWithL : List Char → List Char → Bool
  | [], _ => true
  | _ :: _, [] => false
  | p :: ps, c :: cs => p = c && startsWithL ps cs

/-- Fuel-driven worker for `trimStartMatches`; the fuel is an upper bound on
the number of prefix removals, so structural recursion suffices. -/
def trimStartMatchesGo (p : List Char) : Nat → List Char → List Char
  | 0, s => s
  | n + 1, s =>
    if p ≠ [] ∧ startsWithL p s = true then
      trimStartMatchesGo p n (s.drop p.length)
    else s

/-- Rust `str::trim_start_matches`: repeatedly remove the pattern `p` from
the front of `s` for as long as it is a prefix. -/
def trimStartMatches (p s : List Char) : List Char :=
  trimStartMatchesGo p (s.length + 1) s

/-- Digit test for `i64::from_str` (ASCII `0`-`9` only). -/
def isDigitCh (c : Char) : Bool :=
  48 ≤ c.toNat && c.toNat ≤ 57

/-- Numeric value of an ASCII digit string (no sign). -/
def digitsVal (l : List Char) : Nat :=
  l.foldl (fun a c => a * 10 + (c.toNat - 48)) 0

/-- Parse a non-empty all-digit string to a `Nat`, else `none`. -/
def parseUnsigned (l : List Char) : Option Nat :=
  if l ≠ [] ∧ l.all isDigitCh = true then some (digitsVal l) else none

/-- Magnitude check and injection for the non-negative half of `i64`. -/
def parsePos (l : List Char) : Option Int :=
  match parseUnsigned l with
  | none => none
  | some n => if n ≤ 9223372036854775807 then some (n : Int) else none

/-- Magnitude check and injection for the negative half of `i64`. -/
def parseNeg (l : List Char) : Option Int :=
  match parseUnsigned l with
  | none => none
  | some n => if n ≤ 9223372036854775808 then some (-(n : Int)) else none

/-- Rust `i64::from_str` (`value.parse::<i64>()`): optional single `+`/`-`
sign, one or more ASCII digits, value within the signed 64-bit range. -/
def parseI64 (l : List Char) : Option Int :=
  match l with
  | '+' :: rest => parsePos rest
  | '-' :: rest => parseNeg rest
  | rest => parsePos rest

instance {ε α : Type} [DecidableEq ε] [DecidableEq α] : DecidableEq (Except ε α) := fun x y =>
  match x, y with
  | .ok a, .ok b =>
    if h : a = b then isTrue (by rw [h]) else isFalse (by simp [h])
  | .ok _, .error _ => isFalse (by simp)
  | .error _, .ok _ => isFalse (by simp)
  | .error e, .error f =>
    if h : e = f then isTrue (by rw [h]) else isFalse (by simp [h])

/-- `error.rs`: the parse-error enum, with the source's own spellings. -/
inductive ParseError where
  | InvaildValue (value : List Char)
  | TooFewFileds
deriving DecidableEq, Repr

/-- `error.rs`: the top-level error enum; `IoError` cannot arise from
`parse` itself, its payload is irrelevant here. -/
inductive Error where
  | ParseError (e : ParseError)
  | IoError
deriving DecidableEq, Repr

/-- One parsed cookie, as assembled by
`Cookie::build(name, value).domain(..).path(..).secure(..).expires(..)`
(and `.http_only(true)` for marker lines).  Modelled from the spec: the
`Cookie` type itself lives in the external `cookie` crate; the spec's
`CookieRecord` says the string fields are copied verbatim and
`expiration == 0` maps to no expiry. -/
structure Cookie where
  name : List Char
  value : List Char
  domain : List Char
  path : List Char
  secure : Bool
  http_only : Bool
  expires : Option Int
deriving DecidableEq, Repr

/-- Modelled from the spec: `CookieJar` lives in the external `cookie`
crate; the spec describes it as an ordered collection of records,
insertion order preserved. -/
abbrev CookieJar := List Cookie

/-- Modelled from the spec: `CookieJar::add` appends the record, preserving
arrival order, with no deduplication and no overwrite-by-name. -/
def CookieJar.add (j : CookieJar) (c : Cookie) : CookieJar :=
  j ++ [c]

/-- `lib.rs`: the builder holding the jar under construction. -/
structure CookieJarBuilder where
  jar : CookieJar
deriving DecidableEq, Repr

/-- `CookieJarBuilder::new` / `Default`: an empty jar. -/
def CookieJarBuilder.new : CookieJarBuilder := ⟨[]⟩

/-- `CookieJarBuilder::with_jar`: start from a caller-supplied jar. -/
def CookieJarBuilder.with_jar (j : CookieJar) : CookieJarBuilder := ⟨j⟩

/-- `CookieJarBuilder::finish`: return the built jar. -/
def CookieJarBuilder.finish (b : CookieJarBuilder) : CookieJar := b.jar

/-- The token `"TRUE"`. -/
def trueTok : List Char := ['T', 'R', 'U', 'E']

/-- The token `"FALSE"`. -/
def falseTok : List Char := ['F', 'A', 'L', 'S', 'E']

/-- The comment marker `"#"`. -/
def hashTok : List Char := ['#']

/-- The HttpOnly marker `"#HttpOnly_"`. -/
def httpOnlyTok : List Char := ['#', 'H', 't', 't', 'p', 'O', 'n', 'l', 'y', '_']

/-- Tokenizer tail, from the `expiration` field on: `fileds.next()` for
`expiration` (`TooFewFileds` when absent, `InvaildValue` when not an
`i64`), then `name` and `value` (`TooFewFileds` when absent), then the
cookie is built; any further fields are never requested. -/
def parseExp (ho : Bool) (domain path : List Char) (secure : Bool) :
    List (List Char) → Except ParseError Cookie
  | [] => .error .TooFewFileds
  | expTok :: rest =>
    match parseI64 expTok with
    | none => .error (.InvaildValue expTok)
    | some exp =>
      match rest with
      | [] => .error .TooFewFileds
      | name :: rest' =>
        match rest' with
        | [] => .error .TooFewFileds
        | value :: _ =>
          .ok { name := name, value := value, domain := domain, path := path,
                secure := secure, http_only := ho,
                expires := if exp = 0 then none else some exp }

/-- Tokenizer after the `domain` field: `let _ = fileds.next()` discards the
subdomain field, then `path` and `secure` are taken (`TooFewFileds` when
absent); `secure` must be exactly `"TRUE"` or `"FALSE"`, anything else is
`InvaildValue`. -/
def parseRest (ho : Bool) (domain : List Char) (rest : List (List Char)) :
    Except ParseError Cookie :=
  match rest.tail with
  | [] => .error .TooFewFileds
  | path :: rest2 =>
    match rest2 with
    | [] => .error .TooFewFileds
    | secTok :: rest3 =>
      if secTok = trueTok then parseExp ho domain path true rest3
      else if secTok = falseTok then parseExp ho domain path false rest3
      else .error (.InvaildValue secTok)

/-- The field tokenizer and record builder for one data line
(`lib.rs` lines 80-109), starting with `domain = fileds.next()`. -/
def parseDataLine (ho : Bool) : List (List Char) → Except ParseError Cookie
  | [] => .error .TooFewFileds
  | domain :: rest => parseRest ho domain rest

/-- Classification and processing of one retained line (`lib.rs` lines
71-79): a `"#HttpOnly_"` line is repeatedly prefix-stripped
(`trim_start_matches`) and tokenized with `http_only = true`, another
`"#"` line is skipped (`ok none`), anything else is tokenized with
`http_only = false`. -/
def lineStep (c : List Char) : Except ParseError (Option Cookie) :=
  if startsWithL hashTok c then
    if startsWithL httpOnlyTok c then
      (parseDataLine true (splitTab (trimStartMatches httpOnlyTok c))).map some
    else .ok none
  else
    (parseDataLine false (splitTab c)).map some

/-- `lineStep c` neither failed nor skipped: the line built a cookie. -/
def isDataOk (c : List Char) : Bool :=
  match lineStep c with
  | .ok (some _) => true
  | _ => false

/-- `lineStep c` did not fail (it built a cookie or skipped a comment). -/
def stepOk (c : List Char) : Bool :=
  match lineStep c with
  | .ok _ => true
  | .error _ => false

/-- The retained lines of the input: `s.lines().map(trim).filter(non-empty)`. -/
def retainedLines (s : List Char) : List (List Char) :=
  ((rustLines s).map rustTrim).filter (fun l => !l.isEmpty)

/-- The loop body of `CookieJarBuilder::parse`: process the retained lines
in order, adding each built cookie to the jar, stopping at the first error
(which is wrapped into `Error` by the `From<ParseError>` impl). -/
def parseLines (b : CookieJarBuilder) : List (List Char) → Except Error CookieJarBuilder
  | [] => .ok b
  | c :: rest =>
    match lineStep c with
    | .error e => .error (.ParseError e)
    | .ok none => parseLines b rest
    | .ok (some ck) => parseLines ⟨b.jar.add ck⟩ rest

/-- `CookieJarBuilder::parse`. -/
def CookieJarBuilder.parse (b : CookieJarBuilder) (s : List Char) :
    Except Error CookieJarBuilder :=
  parseLines b (retainedLines s)

/-- The free function `nescookie::parse`. -/
def parse (s : List Char) : Except Error CookieJar :=
  (CookieJarBuilder.new.parse s).map CookieJarBuilder.finish

/-- `k` copies of `p` prepended to `r`; used to state what
`trim_start_matches` removed. -/
def appN (p : List Char) : Nat → List Char → List Char
  | 0, r => r
  | k + 1, r => p ++ appN p k r

theorem splitCh_ne_nil (sep : Char) (s : List Char) : splitCh sep s ≠ [] := by
  cases s with
  | nil => simp [splitCh]
  | cons c cs =>
    simp only [splitCh]
    split <;> simp

theorem startsWithL_le_length :
    ∀ p s : List Char, startsWithL p s = true → p.length ≤ s.length := by
  intro p
  induction p with
  | nil => intro s _; simp
  | cons a ps ih =>
    intro s h
    cases s with
    | nil => simp [startsWithL] at h
    | cons c cs =>
      simp only [startsWithL, Bool.and_eq_true] at h
      simpa using ih cs h.2

theorem startsWithL_eq_append :
    ∀ p s : List Char, startsWithL p s = true → s = p ++ s.drop p.length := by
  intro p
  induction p with
  | nil => intro s _; simp
  | cons a ps ih =>
    intro s h
    cases s with
    | nil => simp [startsWithL] at h
    | cons c cs =>
      simp only [startsWithL, Bool.and_eq_true, decide_eq_true_eq] at h
      obtain ⟨rfl, h2⟩ := h
      simpa using ih cs h2

theorem startsWithL_hash_of_marker {c : List Char}
    (h : startsWithL httpOnlyTok c = true) : startsWithL hashTok c = true := by
  cases c with
  | nil => simp [startsWithL, httpOnlyTok] at h
  | cons x xs =>
    simp only [startsWithL, httpOnlyTok, Bool.and_eq_true, decide_eq_true_eq] at h
    simp only [startsWithL, hashTok, Bool.and_eq_true, decide_eq_true_eq]
    exact ⟨h.1, trivial⟩

theorem trimStartMatchesGo_not_starts {p : List Char} (hp : p ≠ []) :
    ∀ fuel s, s.length < fuel →
      startsWithL p (trimStartMatchesGo p fuel s) = false := by
  intro fuel
  induction fuel with
  | zero => intro s h; omega
  | succ n ih =>
    intro s h
    by_cases hs : startsWithL p s = true
    · rw [trimStartMatchesGo, if_pos ⟨hp, hs⟩]
      apply ih
      have h1 : 1 ≤ p.length := by
        cases p with
        | nil => exact absurd rfl hp
        | cons _ _ => simp
      have h2 := startsWithL_le_length p s hs
      simp only [List.length_drop]
      omega
    · rw [trimStartMatchesGo, if_neg]
      · simpa using hs
      · intro hc
        exact hs hc.2

theorem trimStartMatchesGo_appN (p : List Char) :
    ∀ fuel s, ∃ k, s = appN p k (trimStartMatchesGo p fuel s) := by
  intro fuel
  induction fuel with
  | zero => intro s; exact ⟨0, rfl⟩
  | succ n ih =>
    intro s
    by_cases hc : p ≠ [] ∧ startsWithL p s = true
    · rw [trimStartMatchesGo, if_pos hc]
      obtain ⟨k, hk⟩ := ih (s.drop p.length)
      refine ⟨k + 1, ?_⟩
      conv_lhs => rw [startsWithL_eq_append p s hc.2]
      rw [appN, ← hk]
    · rw [trimStartMatchesGo, if_neg hc]
      exact ⟨0, rfl⟩

theorem trimStartMatches_not_starts {p : List Char} (hp : p ≠ []) (s : List Char) :
    startsWithL p (trimStartMatches p s) = false :=
  trimStartMatchesGo_not_starts hp (s.length + 1) s (by omega)

theorem trimStartMatches_appN (p s : List Char) :
    ∃ k, s = appN p k (trimStartMatches p s) :=
  trimStartMatchesGo_appN p (s.length + 1) s

/-- Unfolding of the tokenizer on a line with at least four fields: the
subdomain field is discarded and the `secure` token is dispatched. -/
theorem parseDataLine_cons4 (ho : Bool) (d sub p sec : List Char)
    (rest : List (List Char)) :
    parseDataLine ho (d :: sub :: p :: sec :: rest) =
      if sec = trueTok then parseExp ho d p true rest
      else if sec = falseTok then parseExp ho d p false rest
      else .error (.InvaildValue sec) := rfl

theorem parseDataLine_cons_ok (ho : Bool) (d sub p sec exp nm v : List Char)
    (rest : List (List Char)) (sb : Bool) (t : Int)
    (hsec : sec = trueTok ∧ sb = true ∨ sec = falseTok ∧ sb = false)
    (hexp : parseI64 exp = some t) :
    parseDataLine ho (d :: sub :: p :: sec :: exp :: nm :: v :: rest) =
      .ok { name := nm, value := v, domain := d, path := p, secure := sb,
            http_only := ho, expires := if t = 0 then none else some t } := by
  rcases hsec with ⟨rfl, rfl⟩ | ⟨rfl, rfl⟩
  · simp [parseDataLine, parseRest, parseExp, hexp]
  · rw [parseDataLine, parseRest]
    simp only [List.tail_cons]
    rw [if_neg (by decide)]
    simp [parseExp, hexp]

theorem parseExp_cons_ok_inv {ho : Bool} {dm p : List Char} {sb : Bool}
    {expTok : List Char} {r : List (List Char)} {ck : Cookie}
    (h : parseExp ho dm p sb (expTok :: r) = .ok ck) :
    ∃ t, parseI64 expTok = some t ∧ ck.secure = sb ∧ ck.http_only = ho ∧
      ck.expires = (if t = 0 then none else some t) := by
  cases hP : parseI64 expTok with
  | none => simp [parseExp, hP] at h
  | some t =>
    cases r with
    | nil => simp [parseExp, hP] at h
    | cons nm r2 =>
      cases r2 with
      | nil => simp [parseExp, hP] at h
      | cons v r3 =>
        simp only [parseExp, hP, Except.ok.injEq] at h
        exact ⟨t, rfl, by rw [← h], by rw [← h], by rw [← h]⟩

theorem parseDataLine_sec_invalid (ho : Bool) (d sub p sec : List Char)
    (rest : List (List Char)) (h1 : sec ≠ trueTok) (h2 : sec ≠ falseTok) :
    parseDataLine ho (d :: sub :: p :: sec :: rest) = .error (.InvaildValue sec) := by
  rw [parseDataLine, parseRest]
  simp only [List.tail_cons]
  rw [if_neg h1, if_neg h2]

theorem parseDataLine_exp_invalid (ho : Bool) (d sub p sec exp : List Char)
    (rest : List (List Char)) (hsec : sec = trueTok ∨ sec = falseTok)
    (hexp : parseI64 exp = none) :
    parseDataLine ho (d :: sub :: p :: sec :: exp :: rest) =
      .error (.InvaildValue exp) := by
  rcases hsec with rfl | rfl
  · simp [parseDataLine, parseRest, parseExp, hexp]
  · rw [parseDataLine, parseRest]
    simp only [List.tail_cons]
    rw [if_neg (by decide)]
    simp [parseExp, hexp]

theorem lineStep_comment {c : List Char} (h1 : startsWithL hashTok c = true)
    (h2 : startsWithL httpOnlyTok c = false) : lineStep c = .ok none := by
  simp [lineStep, h1, h2]

theorem parseLines_first_error :
    ∀ (pre : List (List Char)) (b : CookieJarBuilder) (c : List Char)
      (post : List (List Char)) (e : ParseError),
      (∀ x ∈ pre, stepOk x = true) → lineStep c = .error e →
      parseLines b (pre ++ c :: post) = .error (.ParseError e) := by
  intro pre
  induction pre with
  | nil =>
    intro b c post e _ hc
    simp [parseLines, hc]
  | cons x pre ih =>
    intro b c post e hpre hc
    have hx := hpre x (by simp)
    cases hlx : lineStep x with
    | error e' => simp [stepOk, hlx] at hx
    | ok r =>
      cases r with
      | none =>
        simp only [List.cons_append, parseLines, hlx]
        exact ih b c post e (fun y hy => hpre y (by simp [hy])) hc
      | some ck =>
        simp only [List.cons_append, parseLines, hlx]
        exact ih _ c post e (fun y hy => hpre y (by simp [hy])) hc

theorem parseLines_all_ok :
    ∀ (L : List (List Char)) (b : CookieJarBuilder),
      (∀ x ∈ L, stepOk x = true) → ∃ b', parseLines b L = .ok b' := by
  intro L
  induction L with
  | nil => intro b _; exact ⟨b, rfl⟩
  | cons x L ih =>
    intro b hL
    have hx := hL x (by simp)
    cases hlx : lineStep x with
    | error e' => simp [stepOk, hlx] at hx
    | ok r =>
      cases r with
      | none =>
        obtain ⟨b', hb'⟩ := ih b (fun y hy => hL y (by simp [hy]))
        exact ⟨b', by simp only [parseLines, hlx]; exact hb'⟩
      | some ck =>
        obtain ⟨b', hb'⟩ := ih ⟨b.jar.add ck⟩ (fun y hy => hL y (by simp [hy]))
        exact ⟨b', by simp only [parseLines, hlx]; exact hb'⟩

theorem parseLines_data_append :
    ∀ (L : List (List Char)) (b : CookieJarBuilder),
      (∀ x ∈ L, isDataOk x = true) →
      ∃ new : CookieJar,
        parseLines b L = .ok ⟨b.jar ++ new⟩ ∧ new.length = L.length := by
  intro L
  induction L with
  | nil => intro b _; exact ⟨[], by simp [parseLines]⟩
  | cons x L ih =>
    intro b hL
    have hx := hL x (by simp)
    cases hlx : lineStep x with
    | error e' => simp [isDataOk, hlx] at hx
    | ok r =>
      cases r with
      | none => simp [isDataOk, hlx] at hx
      | some ck =>
        obtain ⟨new, hnew, hlen⟩ := ih ⟨b.jar.add ck⟩ (fun y hy => hL y (by simp [hy]))
        refine ⟨ck :: new, ?_, by simp [hlen]⟩
        simp only [parseLines, hlx]
        rw [hnew]
        simp [CookieJar.add]

theorem parseLines_skip :
    ∀ (L : List (List Char)) (b : CookieJarBuilder),
      (∀ x ∈ L, lineStep x = .ok none) → parseLines b L = .ok b := by
  intro L
  induction L with
  | nil => intro b _; rfl
  | cons x L ih =>
    intro b hL
    have hx := hL x (by simp)
    simp only [parseLines, hx]
    exact ih b (fun y hy => hL y (by simp [hy]))

example : "ab".data = ['a', 'b'] := rfl

example :
    parse ".pixiv.net\tTRUE\t/\tTRUE\t1784339332\tp_ab_id\t7\n".data =
      .ok [{ name := "p_ab_id".data, value := "7".data, domain := ".pixiv.net".data,
             path := "/".data, secure := true, http_only := false,
             expires := some 1784339332 }] := by
  decide

example :
    parse "#HttpOnly_.example.com\tTRUE\t/\tFALSE\t0\tsess\tabc\n".data =
      .ok [{ name := "sess".data, value := "abc".data, domain := ".example.com".data,
             path := "/".data, secure := false, http_only := true,
             expires := none }] := by
  decide

example :
    parse "example.com\tTRUE\t/\n".data = .error (.ParseError .TooFewFileds) := by
  decide

example :
    parse "example.com\tTRUE\t/\tMAYBE\t0\tn\tv\n".data =
      .error (.ParseError (.InvaildValue "MAYBE".data)) := by
  decide

example :
    parse "# comment\n\n  \na\tT\t/\tTRUE\t0\tn\tv\n".data =
      .ok [{ name := "n".data, value := "v".data, domain := "a".data,
             path := "/".data, secure := true, http_only := false,
             expires := none }] := by
  decide


/-- C1: for inputs whose retained lines are all well-formed data lines
(`#HttpOnly_` lines included), `parse` succeeds, each line appends exactly
one record to the jar in order — never discarding a prior record, even for
duplicate names — and the final record count grows by exactly the number of
non-blank, non-comment lines. -/
theorem c1_data_lines_count_and_append (b : CookieJarBuilder) (s : List Char)
    (h : (retainedLines s).all isDataOk = true) :
    ∃ new : CookieJar,
      b.parse s = .ok ⟨b.jar ++ new⟩ ∧ new.length = (retainedLines s).length := by
  rw [CookieJarBuilder.parse]
  exact parseLines_data_append _ b (by simpa [List.all_eq_true] using h)

/-- Witness for C1: a pre-seeded jar and two data lines sharing the name
`n`; both records are appended after the seed record. -/
theorem c1_witness :
    ∃ new : CookieJar,
      (CookieJarBuilder.with_jar
          [{ name := "old".data, value := "ov".data, domain := "o.com".data,
             path := "/".data, secure := false, http_only := false,
             expires := none }]).parse
          "a\tT\t/\tTRUE\t0\tn\tv\n\na\tT\t/\tFALSE\t5\tn\tv2\n".data =
        .ok ⟨(CookieJarBuilder.with_jar
          [{ name := "old".data, value := "ov".data, domain := "o.com".data,
             path := "/".data, secure := false, http_only := false,
             expires := none }]).jar ++ new⟩ ∧
      new.length =
        (retainedLines "a\tT\t/\tTRUE\t0\tn\tv\n\na\tT\t/\tFALSE\t5\tn\tv2\n".data).length :=
  c1_data_lines_count_and_append _ _ (by decide)

/-- C2: scanning the retained lines top-to-bottom, the first line that
fails makes `parse` return exactly that line's error and no jar, while an
input whose lines all succeed returns a complete jar: there is no partial
result. -/
theorem c2_first_error_aborts (b : CookieJarBuilder) (s : List Char) :
    (∀ pre c post e, retainedLines s = pre ++ c :: post →
        (∀ x ∈ pre, stepOk x = true) → lineStep c = .error e →
        b.parse s = .error (.ParseError e)) ∧
    ((∀ x ∈ retainedLines s, stepOk x = true) → ∃ b', b.parse s = .ok b') := by
  constructor
  · intro pre c post e hsplit hpre hc
    rw [CookieJarBuilder.parse, hsplit]
    exact parseLines_first_error pre b c post e hpre hc
  · intro hall
    rw [CookieJarBuilder.parse]
    exact parseLines_all_ok _ b hall

/-- Witness for C2: a good first line, a malformed second line, and a good
third line; the whole parse returns the second line's `TooFewFileds`. -/
theorem c2_witness :
    CookieJarBuilder.new.parse "a\tT\t/\tTRUE\t0\tn\tv\nbad\nx\tT\t/\tTRUE\t0\tn\tv\n".data =
      .error (.ParseError .TooFewFileds) :=
  (c2_first_error_aborts CookieJarBuilder.new
      "a\tT\t/\tTRUE\t0\tn\tv\nbad\nx\tT\t/\tTRUE\t0\tn\tv\n".data).1
    ["a\tT\t/\tTRUE\t0\tn\tv".data] "bad".data ["x\tT\t/\tTRUE\t0\tn\tv".data]
    .TooFewFileds (by decide) (by decide) (by decide)

/-- C3: a parsed record's `secure` flag is `true` iff the fourth
tab-delimited field was exactly `"TRUE"` and `false` iff it was exactly
`"FALSE"`; any other fourth field makes the line fail with
`InvaildValue` carrying that token. -/
theorem c3_secure_strict (ho : Bool) (d sub p sec : List Char)
    (rest : List (List Char)) :
    (∀ ck, parseDataLine ho (d :: sub :: p :: sec :: rest) = .ok ck →
        ((ck.secure = true ↔ sec = trueTok) ∧ (ck.secure = false ↔ sec = falseTok))) ∧
    (sec ≠ trueTok → sec ≠ falseTok →
        parseDataLine ho (d :: sub :: p :: sec :: rest) = .error (.InvaildValue sec)) := by
  constructor
  · intro ck h
    by_cases hT : sec = trueTok
    · subst hT
      rw [parseDataLine_cons4, if_pos rfl] at h
      cases rest with
      | nil => simp [parseExp] at h
      | cons expTok r =>
        obtain ⟨t, -, hsec, -, -⟩ := parseExp_cons_ok_inv h
        constructor
        · simp [hsec]
        · rw [hsec]
          simp only [Bool.true_eq_false, false_iff]
          decide
    · by_cases hF : sec = falseTok
      · subst hF
        rw [parseDataLine_cons4, if_neg (by decide), if_pos rfl] at h
        cases rest with
        | nil => simp [parseExp] at h
        | cons expTok r =>
          obtain ⟨t, -, hsec, -, -⟩ := parseExp_cons_ok_inv h
          constructor
          · rw [hsec]
            simp only [Bool.false_eq_true, false_iff]
            decide
          · simp [hsec]
      · rw [parseDataLine_sec_invalid ho d sub p sec rest hT hF] at h
        exact absurd h (by simp)
  · intro h1 h2
    exact parseDataLine_sec_invalid ho d sub p sec rest h1 h2

/-- Witness for C3: a `"TRUE"` line yields `secure = true`; a `"MAYBE"`
line fails with `InvaildValue "MAYBE"`. -/
theorem c3_witness :
    ({ name := "n".data, value := "v".data, domain := "d".data, path := "/".data,
       secure := true, http_only := false, expires := none } : Cookie).secure = true ∧
    parseDataLine false
        ("d".data :: "x".data :: "/".data :: "MAYBE".data ::
          ["0".data, "n".data, "v".data]) =
      .error (.InvaildValue "MAYBE".data) :=
  ⟨((c3_secure_strict false "d".data "x".data "/".data "TRUE".data
        ["0".data, "n".data, "v".data]).1 _ (by decide)).1.mpr (by decide),
   (c3_secure_strict false "d".data "x".data "/".data "MAYBE".data
        ["0".data, "n".data, "v".data]).2 (by decide) (by decide)⟩

/-- C4: the fifth field must parse as a base-10 signed 64-bit integer; an
unparsable token fails the line with `InvaildValue` carrying that token, a
token parsing to `0` (in particular the token `"0"`) yields a record with
no expiry, and a token parsing to any other integer `t` yields a record
whose expiry is the absolute Unix timestamp `t`. -/
theorem c4_expiration_integer (ho : Bool) (d sub p sec exp : List Char)
    (rest : List (List Char)) (hsec : sec = trueTok ∨ sec = falseTok) :
    (parseI64 exp = none →
        parseDataLine ho (d :: sub :: p :: sec :: exp :: rest) =
          .error (.InvaildValue exp)) ∧
    (∀ t ck, parseI64 exp = some t →
        parseDataLine ho (d :: sub :: p :: sec :: exp :: rest) = .ok ck →
        ck.expires = if t = 0 then none else some t) ∧
    (∀ ck, exp = ['0'] →
        parseDataLine ho (d :: sub :: p :: sec :: exp :: rest) = .ok ck →
        ck.expires = none) := by
  have hval : ∀ t ck, parseI64 exp = some t →
      parseDataLine ho (d :: sub :: p :: sec :: exp :: rest) = .ok ck →
      ck.expires = if t = 0 then none else some t := by
    intro t ck hsome h
    rcases hsec with rfl | rfl
    · rw [parseDataLine_cons4, if_pos rfl] at h
      obtain ⟨t', ht', -, -, hexp⟩ := parseExp_cons_ok_inv h
      rw [hsome, Option.some_inj] at ht'
      rw [hexp, ht']
    · rw [parseDataLine_cons4, if_neg (by decide), if_pos rfl] at h
      obtain ⟨t', ht', -, -, hexp⟩ := parseExp_cons_ok_inv h
      rw [hsome, Option.some_inj] at ht'
      rw [hexp, ht']
  refine ⟨?_, hval, ?_⟩
  · intro hnone
    exact parseDataLine_exp_invalid ho d sub p sec exp rest hsec hnone
  · intro ck h0 hok
    subst h0
    simpa using hval 0 ck (by decide) hok

/-- Witness for C4: token `"0"` gives no expiry, token `"1784339332"` gives
expiry `1784339332`, and token `"12x"` fails with `InvaildValue "12x"`. -/
theorem c4_witness :
    ({ name := "n".data, value := "v".data, domain := "d".data, path := "/".data,
       secure := true, http_only := false, expires := none } : Cookie).expires = none ∧
    ({ name := "n".data, value := "v".data, domain := "d".data, path := "/".data,
       secure := true, http_only := false,
       expires := some 1784339332 } : Cookie).expires = some 1784339332 ∧
    parseDataLine false
        ("d".data :: "x".data :: "/".data :: "TRUE".data :: "12x".data ::
          ["n".data, "v".data]) =
      .error (.InvaildValue "12x".data) :=
  ⟨(c4_expiration_integer false "d".data "x".data "/".data "TRUE".data "0".data
        ["n".data, "v".data] (by decide)).2.2 _ rfl (by decide),
   by
    have h2 := (c4_expiration_integer false "d".data "x".data "/".data "TRUE".data
        "1784339332".data ["n".data, "v".data] (by decide)).2.1 1784339332
        { name := "n".data, value := "v".data, domain := "d".data, path := "/".data,
          secure := true, http_only := false, expires := some 1784339332 }
        (by decide) (by decide)
    exact h2.trans (by decide),
   (c4_expiration_integer false "d".data "x".data "/".data "TRUE".data "12x".data
        ["n".data, "v".data] (by decide)).1 (by decide)⟩

/-- C5 counterexample: on the line
`"#HttpOnly_#HttpOnly_d\tx\t/\tTRUE\t0\tn\tv"` the code does not strip a
single `"#HttpOnly_"` prefix and parse the remainder
(`"#HttpOnly_d\tx\t/\tTRUE\t0\tn\tv"`) as a data line: `trim_start_matches`
removes the marker twice, so the recorded domain is `"d"`, not
`"#HttpOnly_d"`. -/
theorem c5_counterexample :
    lineStep "#HttpOnly_#HttpOnly_d\tx\t/\tTRUE\t0\tn\tv".data ≠
      (parseDataLine true
          (splitTab "#HttpOnly_d\tx\t/\tTRUE\t0\tn\tv".data)).map some := by
  decide

/-- C5 (amended): for a retained line starting with `"#HttpOnly_"`, all
leading repetitions of that marker are stripped (Rust
`trim_start_matches` semantics) — the stripped remainder no longer starts
with the marker and the removed part is some number of copies of it — and
the remainder is parsed exactly as a normal data line with
`http_only = true`; a retained line starting with `"#"` but not
`"#HttpOnly_"` is discarded entirely, producing no record and no error. -/
theorem c5_amended_marker_stripping (c : List Char) :
    (startsWithL httpOnlyTok c = true →
        lineStep c =
          (parseDataLine true (splitTab (trimStartMatches httpOnlyTok c))).map some ∧
        startsWithL httpOnlyTok (trimStartMatches httpOnlyTok c) = false ∧
        ∃ k, c = appN httpOnlyTok k (trimStartMatches httpOnlyTok c)) ∧
    (startsWithL hashTok c = true → startsWithL httpOnlyTok c = false →
        lineStep c = .ok none) := by
  constructor
  · intro h
    refine ⟨?_, trimStartMatches_not_starts (by decide) c,
      trimStartMatches_appN _ c⟩
    rw [lineStep, if_pos (startsWithL_hash_of_marker h), if_pos h]
  · intro h1 h2
    exact lineStep_comment h1 h2

/-- Witness for C5: the doubled-marker line is parsed from its fully
stripped remainder, and a plain comment line is skipped without error. -/
theorem c5_witness :
    (lineStep "#HttpOnly_#HttpOnly_d\tx\t/\tTRUE\t0\tn\tv".data =
        (parseDataLine true
            (splitTab (trimStartMatches httpOnlyTok
              "#HttpOnly_#HttpOnly_d\tx\t/\tTRUE\t0\tn\tv".data))).map some ∧
      startsWithL httpOnlyTok
          (trimStartMatches httpOnlyTok
            "#HttpOnly_#HttpOnly_d\tx\t/\tTRUE\t0\tn\tv".data) = false ∧
      ∃ k, "#HttpOnly_#HttpOnly_d\tx\t/\tTRUE\t0\tn\tv".data =
          appN httpOnlyTok k
            (trimStartMatches httpOnlyTok
              "#HttpOnly_#HttpOnly_d\tx\t/\tTRUE\t0\tn\tv".data)) ∧
    lineStep "# just a comment".data = .ok none :=
  ⟨(c5_amended_marker_stripping
      "#HttpOnly_#HttpOnly_d\tx\t/\tTRUE\t0\tn\tv".data).1 (by decide),
   (c5_amended_marker_stripping "# just a comment".data).2 (by decide) (by decide)⟩

/-- C6: a data line with fewer than the seven required tab-delimited fields
whose present fields are individually valid (the `secure` field, when
present, is one of the two literals; the `expiration` field, when present,
parses as an `i64`) fails with `TooFewFileds`. -/
theorem c6_too_few_fields (ho : Bool) (fields : List (List Char))
    (hlen : fields.length < 7)
    (hsec : ∀ x ∈ (fields.drop 3).take 1, x = trueTok ∨ x = falseTok)
    (hexp : ∀ x ∈ (fields.drop 4).take 1, (parseI64 x).isSome = true) :
    parseDataLine ho fields = .error .TooFewFileds := by
  rcases fields with _ | ⟨d, _ | ⟨sub, _ | ⟨p, _ | ⟨sec, _ | ⟨exp, _ | ⟨nm, _ | ⟨v, rest⟩⟩⟩⟩⟩⟩⟩
  · rfl
  · rfl
  · rfl
  · rfl
  · rcases hsec sec (by simp) with rfl | rfl
    · rw [parseDataLine_cons4, if_pos rfl]; rfl
    · rw [parseDataLine_cons4, if_neg (by decide), if_pos rfl]; rfl
  · obtain ⟨t, ht⟩ := Option.isSome_iff_exists.mp (hexp exp (by simp))
    rcases hsec sec (by simp) with rfl | rfl
    · rw [parseDataLine_cons4, if_pos rfl]
      simp [parseExp, ht]
    · rw [parseDataLine_cons4, if_neg (by decide), if_pos rfl]
      simp [parseExp, ht]
  · obtain ⟨t, ht⟩ := Option.isSome_iff_exists.mp (hexp exp (by simp))
    rcases hsec sec (by simp) with rfl | rfl
    · rw [parseDataLine_cons4, if_pos rfl]
      simp [parseExp, ht]
    · rw [parseDataLine_cons4, if_neg (by decide), if_pos rfl]
      simp [parseExp, ht]
  · exfalso
    simp only [List.length_cons] at hlen
    omega

/-- Witness for C6: five fields with a valid `secure` and a valid
`expiration` still fail with `TooFewFileds` because `name` is missing. -/
theorem c6_witness :
    parseDataLine false
        ["a".data, "x".data, "/".data, "TRUE".data, "0".data] =
      .error .TooFewFileds :=
  c6_too_few_fields false _ (by decide) (by decide) (by decide)

/-- C7 counterexample: the line `"d\tx\t\tTRUE\t0\tn\tv"` parses
successfully into a jar whose single record has an empty `path`, refuting
the claim that every successfully built record has non-empty `domain`,
`path` and `name`. -/
theorem c7_counterexample :
    ∃ (b : CookieJarBuilder) (ck : Cookie),
      CookieJarBuilder.new.parse "d\tx\t\tTRUE\t0\tn\tv".data = .ok b ∧
      ck ∈ b.jar ∧ ck.path = [] := by
  refine ⟨⟨[{ name := "n".data, value := "v".data, domain := "d".data, path := [],
              secure := true, http_only := false, expires := none }]⟩,
      { name := "n".data, value := "v".data, domain := "d".data, path := [],
        secure := true, http_only := false, expires := none }, by decide, by simp, rfl⟩

/-- C7 (amended): every successfully built record copies `domain`, `path`,
`name` and `value` verbatim from the fields present in the source line;
the tokenizer rejects only missing fields, not empty strings, so
empty-string field values (including empty `domain`, `path` or `name`)
are accepted whenever the source text contains an empty field. -/
theorem c7_amended_fields_verbatim (ho : Bool) (d sub p sec exp nm v : List Char)
    (rest : List (List Char)) (sb : Bool) (t : Int)
    (hsec : sec = trueTok ∧ sb = true ∨ sec = falseTok ∧ sb = false)
    (hexp : parseI64 exp = some t) :
    parseDataLine ho (d :: sub :: p :: sec :: exp :: nm :: v :: rest) =
      .ok { name := nm, value := v, domain := d, path := p, secure := sb,
            http_only := ho, expires := if t = 0 then none else some t } :=
  parseDataLine_cons_ok ho d sub p sec exp nm v rest sb t hsec hexp

/-- Witness for C7: a line whose `domain`, `path` and `name` fields are all
empty strings is accepted and the record copies them verbatim. -/
theorem c7_witness :
    parseDataLine false
        (([] : List Char) :: "x".data :: ([] : List Char) :: "TRUE".data ::
          "0".data :: ([] : List Char) :: "v".data :: []) =
      .ok { name := [], value := "v".data, domain := [], path := [],
            secure := true, http_only := false, expires := none } :=
  (c7_amended_fields_verbatim false [] "x".data [] "TRUE".data "0".data []
      "v".data [] true 0 (Or.inl ⟨rfl, rfl⟩) (by decide)).trans (by decide)

/-- Fields beyond the seventh are never requested from the iterator: the
tokenizer tail gives the same result on `exp :: nm :: v :: rest` as on
`[exp, nm, v]`. -/
theorem parseExp_extra (ho : Bool) (dm p : List Char) (sb : Bool)
    (exp nm v : List Char) (rest : List (List Char)) :
    parseExp ho dm p sb (exp :: nm :: v :: rest) =
      parseExp ho dm p sb [exp, nm, v] := by
  cases hE : parseI64 exp <;> simp [parseExp, hE]

/-- C8: a data line with more than seven tab-delimited fields parses
exactly as the same line truncated to its first seven fields: the extra
fields have no effect on the result. -/
theorem c8_extra_fields_ignored (ho : Bool) (fields : List (List Char))
    (h : 7 ≤ fields.length) :
    parseDataLine ho fields = parseDataLine ho (fields.take 7) := by
  rcases fields with _ | ⟨d, _ | ⟨sub, _ | ⟨p, _ | ⟨sec, _ | ⟨exp, _ | ⟨nm, _ | ⟨v, rest⟩⟩⟩⟩⟩⟩⟩
  · simp only [List.length_nil] at h; omega
  · simp only [List.length_cons, List.length_nil] at h; omega
  · simp only [List.length_cons, List.length_nil] at h; omega
  · simp only [List.length_cons, List.length_nil] at h; omega
  · simp only [List.length_cons, List.length_nil] at h; omega
  · simp only [List.length_cons, List.length_nil] at h; omega
  · simp only [List.length_cons, List.length_nil] at h; omega
  · have htake : (d :: sub :: p :: sec :: exp :: nm :: v :: rest).take 7 =
        [d, sub, p, sec, exp, nm, v] := rfl
    rw [htake, parseDataLine_cons4, parseDataLine_cons4]
    split_ifs
    · exact parseExp_extra ho d p true exp nm v rest
    · exact parseExp_extra ho d p false exp nm v rest
    · rfl

/-- Witness for C8: a nine-field line parses the same as its first seven
fields. -/
theorem c8_witness :
    parseDataLine false
        ["d".data, "x".data, "/".data, "TRUE".data, "0".data, "n".data,
          "v".data, "extra1".data, "extra2".data] =
      parseDataLine false
        (["d".data, "x".data, "/".data, "TRUE".data, "0".data, "n".data,
          "v".data, "extra1".data, "extra2".data].take 7) :=
  c8_extra_fields_ignored false _ (by decide)

/-- C9: the `TooFewFileds` branch attached to the `domain` field is
unreachable: every retained line is non-empty after trimming, and
splitting any string on the tab character yields at least one field, so
the tokenizer always takes the `domain :: rest` branch. -/
theorem c9_first_field_never_missing (s : List Char) (ho : Bool) :
    (∀ c ∈ retainedLines s, c.isEmpty = false) ∧
    (∀ c : List Char, ∃ d rest, splitTab c = d :: rest ∧
        parseDataLine ho (splitTab c) = parseRest ho d rest) := by
  constructor
  · intro c hc
    simp only [retainedLines] at hc
    have hp := (List.mem_filter.mp hc).2
    simpa using hp
  · intro c
    rcases hsp : splitTab c with _ | ⟨d, rest⟩
    · exact absurd hsp (splitCh_ne_nil _ _)
    · exact ⟨d, rest, rfl, rfl⟩

/-- Witness for C9: the retained line of `" x\ty\n"` is non-empty, and its
tab-split starts with the field `"x"`. -/
theorem c9_witness :
    ("x\ty".data).isEmpty = false ∧
    ∃ d rest, splitTab "x\ty".data = d :: rest ∧
      parseDataLine false (splitTab "x\ty".data) = parseRest false d rest :=
  ⟨(c9_first_field_never_missing " x\ty\n".data false).1 "x\ty".data (by decide),
   (c9_first_field_never_missing " x\ty\n".data false).2 "x\ty".data⟩

/-- C10: on an input whose retained lines are all comments not starting
with `"#HttpOnly_"` (so in particular on inputs of only blank and comment
lines), `parse` succeeds and returns the builder unchanged; with a jar
supplied via `with_jar`, the returned jar is exactly the supplied jar. -/
theorem c10_comment_blank_identity (j : CookieJar) (s : List Char)
    (h : ∀ c ∈ retainedLines s,
        startsWithL hashTok c = true ∧ startsWithL httpOnlyTok c = false) :
    (CookieJarBuilder.with_jar j).parse s = .ok (CookieJarBuilder.with_jar j) ∧
    (∀ b : CookieJarBuilder, b.parse s = .ok b) ∧
    ((CookieJarBuilder.with_jar j).parse s).map CookieJarBuilder.finish = .ok j := by
  have hall : ∀ b : CookieJarBuilder, b.parse s = .ok b := by
    intro b
    rw [CookieJarBuilder.parse]
    exact parseLines_skip _ b (fun c hc => lineStep_comment (h c hc).1 (h c hc).2)
  refine ⟨hall _, hall, ?_⟩
  rw [hall]
  rfl

/-- Witness for C10: blank lines plus two plain comments return the
pre-seeded jar untouched. -/
theorem c10_witness :
    (CookieJarBuilder.with_jar
        [{ name := "old".data, value := "ov".data, domain := "o.com".data,
           path := "/".data, secure := false, http_only := false,
           expires := none }]).parse "# hello\n\n   \n#another comment\n".data =
      .ok (CookieJarBuilder.with_jar
        [{ name := "old".data, value := "ov".data, domain := "o.com".data,
           path := "/".data, secure := false, http_only := false,
           expires := none }]) ∧
    (∀ b : CookieJarBuilder, b.parse "# hello\n\n   \n#another comment\n".data = .ok b) ∧
    ((CookieJarBuilder.with_jar
        [{ name := "old".data, value := "ov".data, domain := "o.com".data,
           path := "/".data, secure := false, http_only := false,
           expires := none }]).parse "# hello\n\n   \n#another comment\n".data).map
        CookieJarBuilder.finish =
      .ok [{ name := "old".data, value := "ov".data, domain := "o.com".data,
             path := "/".data, secure := false, http_only := false,
             expires := none }] :=
  c10_comment_blank_identity _ _ (by decide)

end Nescookie
